import Mathlib

attribute [local semireducible] Rat.add Rat.mul Rat.sub Rat.inv Rat.ofScientific

/-!
Verification development for the Train repository: a shallow embedding of the
network-building pipeline (`generate_schedule.py`), the scenario-analysis
pipeline (`api.py`), and the conflict/precedence engine (imported in the code
from `rail_decision_engine`, modelled here from the specification since that
module's source is not part of the repository snapshot).

Numeric conventions: Python floats are modelled as rationals (ℚ); the only
float operations the analysed code performs on them are comparisons, addition,
multiplication, division, `max`/`min`, which the rational model reflects
exactly. The haversine great-circle formula uses floating-point trigonometry
and is therefore modelled as an explicit distance-function parameter `hav`;
every property proved below holds for an arbitrary such function, and the
haversine function is deterministic in the coordinates, which is the only
fact the proofs use. File-system access is modelled by `Option`: `none` is an
unavailable source path, `some rows` an available file whose rows have already
been parsed (CSV parsing is outside the analysed core per the specification).
-/

/-! ## Dictionary model

Python `dict` is modelled as an association list in insertion order:
assignment to an existing key replaces the value in place, assignment to a
fresh key appends. `alookup` is `dict.get`. -/

def alookup {κ α : Type} [DecidableEq κ] : List (κ × α) → κ → Option α
| [], _ => none
| (k, v) :: rest, key => if key = k then some v else alookup rest key

def dinsert {κ α : Type} [DecidableEq κ] (m : List (κ × α)) (k : κ) (v : α) : List (κ × α) :=
  if m.any (fun p => p.1 = k) then m.map (fun p => if p.1 = k then (k, v) else p)
  else m ++ [(k, v)]

/-! ## Data model (`generate_schedule.py` dataclasses) -/

structure Station where
  code : String
  name : String
  platform_count : ℕ
  halt_min : ℚ
  lat : Option ℚ
  lon : Option ℚ
deriving DecidableEq, Repr

structure Section where
  from_code : String
  from_name : String
  to_code : String
  to_name : String
  distance_km : ℚ
  travel_min : ℚ
  leg_type : String
deriving DecidableEq, Repr

/-- One parsed row of a station CSV, fields already extracted the way the
loaders read them: empty string for a missing text column, parsed numbers
with the loader defaults applied, coordinates absent when the column is
missing or empty (the SIH station file has no coordinate columns, so its rows
always carry `none`). -/
structure RawStationRow where
  stationCode : String
  stationName : String
  platformCount : ℕ
  haltMin : ℚ
  latitude : Option ℚ
  longitude : Option ℚ
deriving DecidableEq, Repr

/-- One parsed row of the sections CSV. -/
structure RawSectionRow where
  fromCode : String
  fromName : String
  toCode : String
  toName : String
  distanceKm : ℚ
  travelMin : ℚ
deriving DecidableEq, Repr

/-! ## Station loading and merging (`generate_schedule.py`) -/

/-- `load_sih_stations`: keyed by code, later rows overwrite earlier ones;
the name column falls back to the code; the SIH file carries no coordinates.
`none` input models a missing file path (returns the empty dict). -/
def load_sih_stations : Option (List RawStationRow) → List (String × Station)
| none => []
| some rows =>
  rows.foldl
    (fun m r =>
      dinsert m r.stationCode
        { code := r.stationCode
          name := if r.stationName = "" then r.stationCode else r.stationName
          platform_count := r.platformCount
          halt_min := r.haltMin
          lat := none
          lon := none })
    []

/-- The station a Trainsih row parses to (coordinates included). -/
def trainsihRowStation (r : RawStationRow) : Station :=
  { code := r.stationCode
    name := if r.stationName = "" then r.stationCode else r.stationName
    platform_count := r.platformCount
    halt_min := r.haltMin
    lat := r.latitude
    lon := r.longitude }

/-- `load_trainsih_stations`: keyed by code; a duplicate code only replaces
the stored station when the stored one lacks coordinates and the new row has
both. `none` input models a missing file path. -/
def load_trainsih_stations : Option (List RawStationRow) → List (String × Station)
| none => []
| some rows =>
  rows.foldl
    (fun m r =>
      match alookup m r.stationCode with
      | some existing =>
        if (existing.lat = none ∨ existing.lon = none)
            ∧ r.latitude ≠ none ∧ r.longitude ≠ none then
          dinsert m r.stationCode (trainsihRowStation r)
        else m
      | none => dinsert m r.stationCode (trainsihRowStation r))
    []

/-- `merge_stations`: start from the Trainsih dict (the coordinate-bearing
dataset), then walk the SIH dict; for a shared code the Trainsih entry's
non-empty/non-zero fields win and its coordinates are kept unconditionally;
an SIH-only code is inserted as parsed. -/
def merge_stations (sihRows trainsihRows : Option (List RawStationRow)) : List (String × Station) :=
  let sih := load_sih_stations sihRows
  let trn := load_trainsih_stations trainsihRows
  sih.foldl
    (fun merged (code, st) =>
      match alookup merged code with
      | some m =>
        dinsert merged code
          { code := code
            name := if m.name = "" then st.name else m.name
            platform_count := if m.platform_count = 0 then st.platform_count else m.platform_count
            halt_min := if m.halt_min = 0 then st.halt_min else m.halt_min
            lat := m.lat
            lon := m.lon }
      | none => dinsert merged code st)
    trn

/-- `load_real_sections`: rows with an empty endpoint code or equal endpoint
codes are skipped; names fall back to codes; `leg_type` is `"real"`.
`none` input models a missing file path. -/
def load_real_sections : Option (List RawSectionRow) → List Section
| none => []
| some rows =>
  rows.filterMap
    (fun r =>
      if r.fromCode ≠ "" ∧ r.toCode ≠ "" ∧ r.fromCode ≠ r.toCode then
        some { from_code := r.fromCode
               from_name := if r.fromName = "" then r.fromCode else r.fromName
               to_code := r.toCode
               to_name := if r.toName = "" then r.toCode else r.toName
               distance_km := r.distanceKm
               travel_min := r.travelMin
               leg_type := "real" }
      else none)

/-! ## kNN augmentation (`augment_sections_with_knn`)

Python sorts the candidate list with `dlist.sort(key=lambda x: x[0])`: a
stable ascending sort on the distance component only. Any stable ascending
sort computes the same list, so a stable insertion sort models it exactly. -/

def dInsertLe (a : ℚ × String) : List (ℚ × String) → List (ℚ × String)
| [] => [a]
| b :: bs => if a.1 ≤ b.1 then a :: b :: bs else b :: dInsertLe a bs

def sortByDist : List (ℚ × String) → List (ℚ × String)
| [] => []
| a :: xs => dInsertLe a (sortByDist xs)

/-- Station lookup inside the augmentation loop; the Python code indexes
`stations[oc]` where `oc` is always a key of the dict, so the default is
never reached on dict-shaped inputs. -/
def stLookup (stations : List (String × Station)) (c : String) : Station :=
  (alookup stations c).getD { code := c, name := "", platform_count := 0, halt_min := 0, lat := none, lon := none }

/-- The inner `for d, oc in dlist` loop of `augment_sections_with_knn`:
stop once `k` edges were added, skip directed pairs already present,
otherwise append an inferred section and record the pair. -/
def pickLoop (stations : List (String × Station)) (k : ℕ) (code codeName : String)
    (avg_speed_kmph : ℚ) :
    List (ℚ × String) → ℕ → List (String × String) → List Section →
    List (String × String) × List Section
| [], _, ex, res => (ex, res)
| (d, oc) :: rest, added, ex, res =>
  if k ≤ added then (ex, res)
  else if (code, oc) ∈ ex then pickLoop stations k code codeName avg_speed_kmph rest added ex res
  else
    pickLoop stations k code codeName avg_speed_kmph rest (added + 1) (ex ++ [(code, oc)])
      (res ++ [{ from_code := code
                 from_name := codeName
                 to_code := oc
                 to_name := (stLookup stations oc).name
                 distance_km := d
                 travel_min := d / avg_speed_kmph * 60
                 leg_type := "inferred" }])

/-- One station of the outer loop of `augment_sections_with_knn`: stations
without both coordinates are skipped; otherwise the candidate distances to
every other coordinate-bearing station are computed with `hav`, stably sorted
ascending by distance, and up to `k` fresh directed edges are appended. -/
def knnStep (hav : ℚ → ℚ → ℚ → ℚ → ℚ) (stations : List (String × Station)) (k : ℕ)
    (avg_speed_kmph : ℚ) (acc : List (String × String) × List Section)
    (entry : String × Station) : List (String × String) × List Section :=
  match entry.2.lat, entry.2.lon with
  | some la, some lo =>
    let dlist := stations.filterMap
      (fun p =>
        if p.1 = entry.1 then none
        else
          match p.2.lat, p.2.lon with
          | some la2, some lo2 => some (hav la lo la2 lo2, p.1)
          | _, _ => none)
    pickLoop stations k entry.1 entry.2.name avg_speed_kmph (sortByDist dlist) 0 acc.1 acc.2
  | _, _ => acc

/-- `augment_sections_with_knn`, parameterized by the distance function `hav`
standing for `haversine_km` (floating-point trigonometry; only its
determinism in the coordinates matters to any property below). -/
def augment_sections_with_knn (hav : ℚ → ℚ → ℚ → ℚ → ℚ)
    (stations : List (String × Station)) (base_sections : List Section)
    (k : ℕ) (avg_speed_kmph : ℚ) : List Section :=
  (stations.foldl (knnStep hav stations k avg_speed_kmph)
    (base_sections.map (fun s => (s.from_code, s.to_code)), base_sections)).2

/-! ## Adjacency (`build_adjacency`)

The Python dict of neighbor lists, read through `adj.get(code, [])`, is
modelled as the lookup function itself: `setdefault(...).append` appends to
exactly one key's list, and an untouched key reads as the empty list. -/

def build_adjacency (sections : List Section) : String → List (String × Section) :=
  sections.foldl
    (fun adj s => fun c => if c = s.from_code then adj c ++ [(s.to_code, s)] else adj c)
    (fun _ => [])

/-! ## Decision-engine data model

`BlockOccupancy` and `Train` are the structures `api.py` imports from
`rail_decision_engine` and instantiates field by field. -/

structure BlockOccupancy where
  block_id : String
  start_time : ℚ
  end_time : ℚ
deriving DecidableEq, Repr

structure STrain where
  train_id : String
  category : String
  priority : ℤ
  planned_path : List String
  occupancies : List BlockOccupancy
  delay_minutes : ℚ
deriving DecidableEq, Repr

inductive Verdict where
| PROCEED : Verdict
| HOLD : Verdict
deriving DecidableEq, Repr

/-! ## Conflict detection

Modelled from the spec: `detect_block_conflicts` lives in
`rail_decision_engine`, which is not part of the repository snapshot. The
spec prescribes: flatten every train's occupancies into a `block_id`-indexed
pool, compare every unordered pair of occupants of a block, report an overlap
exactly when `max(startA, startB) < min(endA, endB)` holds strictly, with the
window `(max, min)`; a train is never paired with itself; output order is
explicitly not semantically significant, so the model enumerates the flattened
occupant pairs directly. -/

def allOccupants (trains : List STrain) : List (String × BlockOccupancy) :=
  trains.flatMap (fun t => t.occupancies.map (fun o => (t.train_id, o)))

/-- Modelled from the spec: the conflict record one occupant pair produces,
if any — distinct trains, same block, strictly overlapping windows. -/
def conflictOf (x y : String × BlockOccupancy) : Option (String × String × String × (ℚ × ℚ)) :=
  if x.1 ≠ y.1 ∧ x.2.block_id = y.2.block_id
      ∧ max x.2.start_time y.2.start_time < min x.2.end_time y.2.end_time then
    some (x.2.block_id, x.1, y.1,
      (max x.2.start_time y.2.start_time, min x.2.end_time y.2.end_time))
  else none

def pairScan : List (String × BlockOccupancy) → List (String × String × String × (ℚ × ℚ))
| [] => []
| x :: rest => rest.filterMap (conflictOf x) ++ pairScan rest

/-- Modelled from the spec: `detect_block_conflicts` (see `pairScan`). -/
def detect_block_conflicts (trains : List STrain) : List (String × String × String × (ℚ × ℚ)) :=
  pairScan (allOccupants trains)

/-! ## Precedence decision

Modelled from the spec: `decide_precedence` lives in `rail_decision_engine`,
which is not part of the repository snapshot. The spec prescribes, per
unordered pair: higher priority wins; on a priority tie the greater
`delay_minutes` wins; on a full tie a deterministic lexicographic `train_id`
fallback decides. The winner's pairwise outcome is PROCEED, the loser's HOLD,
and a train's final verdict is the minimum over its pairwise outcomes (HOLD
absorbs); a train in no conflict is implicitly PROCEED. -/

def strLtAux : List Char → List Char → Bool
| [], [] => false
| [], _ :: _ => true
| _ :: _, [] => false
| a :: xs, b :: ys =>
  if a.toNat < b.toNat then true
  else if b.toNat < a.toNat then false
  else strLtAux xs ys

/-- Lexicographic string order used for the deterministic id fallback. -/
def strLt (a b : String) : Bool := strLtAux a.toList b.toList

/-- Modelled from the spec: does train `a` win the pairwise comparison
against train `b`? Priority, then delay, then lexicographic id. -/
def beats (a b : STrain) : Bool :=
  if a.priority > b.priority then true
  else if b.priority > a.priority then false
  else if a.delay_minutes > b.delay_minutes then true
  else if b.delay_minutes > a.delay_minutes then false
  else strLt a.train_id b.train_id

def vmin : Verdict → Verdict → Verdict
| Verdict.PROCEED, v => v
| Verdict.HOLD, _ => Verdict.HOLD

/-- Fold one pairwise outcome into the verdict map: the stored verdict is the
minimum of the outcomes seen so far, an absent entry reading as PROCEED. -/
def updVerdict (m : List (String × Verdict)) (t : String) (v : Verdict) : List (String × Verdict) :=
  dinsert m t (vmin ((alookup m t).getD Verdict.PROCEED) v)

/-- Modelled from the spec: `decide_precedence` over the deduplicated pair
list and the id-keyed train map; a pair either of whose ids resolves to no
train contributes nothing. -/
def decide_precedence (pairs : List (String × String)) (byId : String → Option STrain) :
    List (String × Verdict) :=
  pairs.foldl
    (fun m p =>
      match byId p.1, byId p.2 with
      | some ta, some tb =>
        let w := if beats ta tb then p.1 else p.2
        let l := if beats ta tb then p.2 else p.1
        updVerdict (updVerdict m w Verdict.PROCEED) l Verdict.HOLD
      | _, _ => m)
    []

/-- A train's final verdict: the map entry, PROCEED when absent. -/
def finalVerdict (m : List (String × Verdict)) (t : String) : Verdict :=
  (alookup m t).getD Verdict.PROCEED

/-! ## Scenario analysis pipeline (`api.py`, `analyze_scenario`) -/

structure ScenarioTrain where
  train_id : String
  name : Option String
  train_type : String
  priority_level : String
  source : String
  destination : String
deriving DecidableEq, Repr

/-- A section contributes to the name graph and travel-time map only when
both endpoint names are non-empty (`if not u or not v: continue`). -/
def sectionNamesValid (s : Section) : Bool := s.from_name ≠ "" ∧ s.to_name ≠ ""

/-- The `defaultdict(list)` name graph read through indexing: each valid
section appends its destination name to its origin name's neighbor list. -/
def nameGraph (sections : List Section) : String → List String :=
  sections.foldl
    (fun g s =>
      if sectionNamesValid s then
        fun c => if c = s.from_name then g c ++ [s.to_name] else g c
      else g)
    (fun _ => [])

/-- The keys the name-graph dict acquires (used by the `start not in
name_graph` membership test; `append` always runs, so exactly the origin
names of valid sections are keys). -/
def nameGraphKeys (sections : List Section) : List String :=
  (sections.filter sectionNamesValid).map Section.from_name

/-- The `edge_tt` travel-time dict: keyed by the ordered name pair, value
`max(1.0, sec.travel_min)`, later sections overwriting earlier ones. -/
def edgeTT (sections : List Section) : List ((String × String) × ℚ) :=
  sections.foldl
    (fun m s =>
      if sectionNamesValid s then dinsert m (s.from_name, s.to_name) (max 1 s.travel_min)
      else m)
    []

/-- The breadth-first-search loop of `shortest_path`: pop `(node, path)`;
return `path` when `node` is the destination; otherwise enqueue every not-yet
seen neighbor with the extended path, marking it seen at enqueue time. Fuel
makes the recursion structural: every node ever enqueued was unseen at its
enqueue, so the enqueued nodes are pairwise distinct and the loop pops at
most `1 + (number of adjacency entries)` elements; callers pass fuel above
that bound, where the Python loop has provably terminated. -/
def bfsAux (g : String → List String) (dest : String) :
    ℕ → List (String × List String) → List String → List String
| 0, _, _ => []
| _ + 1, [], _ => []
| fuel + 1, (node, path) :: q, seen =>
  if node = dest then path
  else
    let step := (g node).foldl
      (fun (acc : List (String × List String) × List String) nb =>
        if nb ∈ acc.2 then acc
        else (acc.1 ++ [(nb, path ++ [nb])], acc.2 ++ [nb]))
      (q, seen)
    bfsAux g dest fuel step.1 step.2

/-- `shortest_path` from `analyze_scenario`: empty result when the start name
is not a key of the graph or no path reaches the destination. -/
def shortest_path (sections : List Section) (start dest : String) : List String :=
  if start ∈ nameGraphKeys sections then
    bfsAux (nameGraph sections) dest (sections.length + 2) [(start, [start])] [start]
  else []

/-- The occupancy-building loop of `analyze_scenario`: one `BlockOccupancy`
per consecutive pair of route names, `block_id = "u-v"`, travel time from the
`edge_tt` dict with default `5.0`, the running clock advancing by exactly the
travel time. -/
def buildOcc (tt : List ((String × String) × ℚ)) : ℚ → List String → List BlockOccupancy
| _, [] => []
| _, [_] => []
| current, u :: v :: rest =>
  let travel := (alookup tt (u, v)).getD 5
  { block_id := u ++ "-" ++ v, start_time := current, end_time := current + travel }
    :: buildOcc tt (current + travel) (v :: rest)

/-- `pr_map = {"High": 5, "Medium": 3, "Low": 1}` with `.get(level, 1)`. -/
def priorityOf (level : String) : ℤ :=
  if level = "High" then 5 else if level = "Medium" then 3 else if level = "Low" then 1 else 1

def lowerChar (c : Char) : Char :=
  if 65 ≤ c.toNat ∧ c.toNat ≤ 90 then Char.ofNat (c.toNat + 32) else c

/-- Python `str.lower()` restricted to ASCII, which is all the pipeline's
category strings contain. -/
def lowerStr (s : String) : String := String.mk (s.toList.map lowerChar)

/-- The per-request train-building loop of `analyze_scenario`: resolve a
route by name-keyed BFS, skip the train when the route is empty, otherwise
build its occupancies from clock 0 and hardcode `delay_minutes = 0.0`. -/
def built_trains (sections : List Section) (trains : List ScenarioTrain) : List STrain :=
  trains.filterMap
    (fun t =>
      let route := shortest_path sections t.source t.destination
      if route = [] then none
      else
        some { train_id := t.train_id
               category := lowerStr t.train_type
               priority := priorityOf t.priority_level
               planned_path := route
               occupancies := buildOcc (edgeTT sections) 0 route
               delay_minutes := 0 })

/-! ## Helper lemmas: the dictionary model -/

theorem foldl_preserves {α β : Type} {P : α → Prop} (step : α → β → α) (l : List β) (init : α)
    (h : ∀ acc x, x ∈ l → P acc → P (step acc x)) (h0 : P init) : P (l.foldl step init) := by
  induction l generalizing init with
  | nil => simpa using h0
  | cons x xs ih =>
    simp only [List.foldl_cons]
    exact ih _ (fun acc y hy => h acc y (List.mem_cons_of_mem _ hy))
      (h init x (List.mem_cons_self _ _) h0)

theorem alookup_cons {κ α : Type} [DecidableEq κ] (a : κ) (b : α) (rest : List (κ × α)) (key : κ) :
    alookup ((a, b) :: rest) key = if key = a then some b else alookup rest key := rfl

theorem alookup_map_replace {κ α : Type} [DecidableEq κ] (m : List (κ × α)) (k : κ) (v : α) (key : κ) :
    alookup (m.map (fun p => if p.1 = k then (k, v) else p)) key =
      if key = k then (alookup m k).map (fun _ => v) else alookup m key := by
  induction m with
  | nil => simp [alookup]
  | cons p rest ih =>
    obtain ⟨a, b⟩ := p
    by_cases ha : a = k
    · subst ha
      simp only [List.map_cons, if_pos rfl, ih]
      by_cases hk : key = a <;> simp [alookup_cons, hk, ih]
    · simp only [List.map_cons, if_neg ha, alookup_cons, ih]
      by_cases hk : key = a
      · subst hk
        simp [if_neg ha]
      · rw [if_neg (show ¬k = a from fun h => ha h.symm)]
        simp [hk]

theorem alookup_append_single {κ α : Type} [DecidableEq κ] (m : List (κ × α)) (k : κ) (v : α) (key : κ) :
    alookup (m ++ [(k, v)]) key =
      match alookup m key with
      | some w => some w
      | none => if key = k then some v else none := by
  induction m with
  | nil => simp [alookup]
  | cons p rest ih =>
    obtain ⟨a, b⟩ := p
    by_cases hkey : key = a
    · simp [alookup_cons, hkey]
    · simp [alookup_cons, hkey, ih]

theorem alookup_eq_none_of_any_false {κ α : Type} [DecidableEq κ] (m : List (κ × α)) (k : κ)
    (h : m.any (fun p => p.1 = k) = false) : alookup m k = none := by
  induction m with
  | nil => rfl
  | cons p rest ih =>
    obtain ⟨a, b⟩ := p
    simp only [List.any_cons, Bool.or_eq_false_iff, decide_eq_false_iff_not] at h
    rw [alookup_cons, if_neg (fun hk => h.1 hk.symm)]
    exact ih h.2

theorem alookup_isSome_of_any_true {κ α : Type} [DecidableEq κ] (m : List (κ × α)) (k : κ)
    (h : m.any (fun p => p.1 = k) = true) : (alookup m k).isSome := by
  induction m with
  | nil => simp at h
  | cons p rest ih =>
    obtain ⟨a, b⟩ := p
    by_cases hk : k = a
    · simp [alookup_cons, hk]
    · simp only [List.any_cons, Bool.or_eq_true, decide_eq_true_eq] at h
      rcases h with h | h
      · exact absurd h.symm hk
      · rw [alookup_cons, if_neg hk]
        exact ih h

theorem alookup_dinsert {κ α : Type} [DecidableEq κ] (m : List (κ × α)) (k : κ) (v : α) (key : κ) :
    alookup (dinsert m k v) key = if key = k then some v else alookup m key := by
  unfold dinsert
  by_cases hany : m.any (fun p => p.1 = k) = true
  · rw [if_pos hany, alookup_map_replace]
    by_cases hk : key = k
    · rcases Option.isSome_iff_exists.mp (alookup_isSome_of_any_true m k hany) with ⟨w, hw⟩
      simp [hk, hw]
    · simp [hk]
  · rw [if_neg hany, alookup_append_single]
    by_cases hk : key = k
    · subst hk
      rw [alookup_eq_none_of_any_false m key (Bool.eq_false_iff.mpr hany)]
    · cases h : alookup m key <;> simp [hk]

theorem dinsert_keys_nodup {κ α : Type} [DecidableEq κ] (m : List (κ × α)) (k : κ) (v : α)
    (h : (m.map Prod.fst).Nodup) : ((dinsert m k v).map Prod.fst).Nodup := by
  unfold dinsert
  by_cases hany : m.any (fun p => p.1 = k) = true
  · rw [if_pos hany, List.map_map]
    have : (Prod.fst ∘ (fun p => if p.1 = k then (k, v) else p) : κ × α → κ) = Prod.fst := by
      funext p
      by_cases hp : p.1 = k <;> simp [Function.comp, hp]
    rw [this]
    exact h
  · rw [if_neg hany, List.map_append]
    have hnot : k ∉ m.map Prod.fst := by
      intro hmem
      rcases List.mem_map.mp hmem with ⟨p, hp, hpk⟩
      exact hany (List.any_eq_true.mpr ⟨p, hp, by simp [hpk]⟩)
    rw [List.nodup_append]
    exact ⟨h, List.nodup_singleton k, by simpa using hnot⟩

/-! ## Helper lemmas: precedence decision -/

theorem vmin_proceed_right (v : Verdict) : vmin v Verdict.PROCEED = v := by
  cases v <;> rfl

theorem vmin_hold_right (v : Verdict) : vmin v Verdict.HOLD = Verdict.HOLD := by
  cases v <;> rfl

theorem finalVerdict_updVerdict (m : List (String × Verdict)) (t : String) (v : Verdict) (key : String) :
    finalVerdict (updVerdict m t v) key =
      if key = t then vmin (finalVerdict m t) v else finalVerdict m key := by
  unfold finalVerdict updVerdict
  rw [alookup_dinsert]
  by_cases hk : key = t <;> simp [hk]

/-- Does train `t` lose the pair `p` under the pairwise comparison? -/
def losesIn (byId : String → Option STrain) (t : String) (p : String × String) : Bool :=
  match byId p.1, byId p.2 with
  | some ta, some tb => if beats ta tb then t = p.2 else t = p.1
  | _, _ => false

theorem finalVerdict_upd_proceed (m : List (String × Verdict)) (t key : String) :
    finalVerdict (updVerdict m t Verdict.PROCEED) key = finalVerdict m key := by
  rw [finalVerdict_updVerdict]
  by_cases hk : key = t <;> simp [hk, vmin_proceed_right]

theorem finalVerdict_step (byId : String → Option STrain) (m : List (String × Verdict))
    (p : String × String) (key : String) :
    finalVerdict
      (match byId p.1, byId p.2 with
       | some ta, some tb =>
         let w := if beats ta tb then p.1 else p.2
         let l := if beats ta tb then p.2 else p.1
         updVerdict (updVerdict m w Verdict.PROCEED) l Verdict.HOLD
       | _, _ => m) key =
      if losesIn byId key p then Verdict.HOLD else finalVerdict m key := by
  unfold losesIn
  cases ha : byId p.1 with
  | none => simp
  | some ta =>
    cases hb : byId p.2 with
    | none => simp
    | some tb =>
      simp only
      by_cases hbt : beats ta tb = true
      · simp only [hbt, if_true]
        rw [finalVerdict_updVerdict]
        by_cases hk2 : key = p.2
        · simp [hk2, vmin_hold_right]
        · rw [if_neg hk2, finalVerdict_upd_proceed]
          simp [hk2]
      · rw [Bool.not_eq_true] at hbt
        simp only [hbt, Bool.false_eq_true, if_false]
        rw [finalVerdict_updVerdict]
        by_cases hk1 : key = p.1
        · simp [hk1, vmin_hold_right]
        · rw [if_neg hk1, finalVerdict_upd_proceed]
          simp [hk1]

theorem finalVerdict_foldl (byId : String → Option STrain) (pairs : List (String × String))
    (m : List (String × Verdict)) (key : String) :
    finalVerdict
      (pairs.foldl
        (fun m p =>
          match byId p.1, byId p.2 with
          | some ta, some tb =>
            let w := if beats ta tb then p.1 else p.2
            let l := if beats ta tb then p.2 else p.1
            updVerdict (updVerdict m w Verdict.PROCEED) l Verdict.HOLD
          | _, _ => m) m) key =
      if pairs.any (losesIn byId key) then Verdict.HOLD else finalVerdict m key := by
  induction pairs generalizing m with
  | nil => simp
  | cons p rest ih =>
    simp only [List.foldl_cons, List.any_cons]
    rw [ih]
    by_cases hl : losesIn byId key p
    · have : ∀ m', finalVerdict
          (match byId p.1, byId p.2 with
           | some ta, some tb =>
             let w := if beats ta tb then p.1 else p.2
             let l := if beats ta tb then p.2 else p.1
             updVerdict (updVerdict m' w Verdict.PROCEED) l Verdict.HOLD
           | _, _ => m') key = Verdict.HOLD := by
        intro m'
        rw [finalVerdict_step, if_pos hl]
      by_cases hrest : rest.any (losesIn byId key) <;> simp [hl, hrest, this]
    · have hl2 : losesIn byId key p = false := by simpa using hl
      rw [finalVerdict_step, if_neg hl]
      simp only [hl2, Bool.false_or]

theorem finalVerdict_decide_precedence (byId : String → Option STrain)
    (pairs : List (String × String)) (key : String) :
    finalVerdict (decide_precedence pairs byId) key =
      if pairs.any (losesIn byId key) then Verdict.HOLD else Verdict.PROCEED := by
  unfold decide_precedence
  rw [finalVerdict_foldl]
  rfl

/-! ## Helper lemmas: conflict detection -/

theorem conflictOf_eq_some_iff (x y : String × BlockOccupancy) (c : String × String × String × (ℚ × ℚ)) :
    conflictOf x y = some c ↔
      (x.1 ≠ y.1 ∧ x.2.block_id = y.2.block_id
        ∧ max x.2.start_time y.2.start_time < min x.2.end_time y.2.end_time)
      ∧ c = (x.2.block_id, x.1, y.1,
          (max x.2.start_time y.2.start_time, min x.2.end_time y.2.end_time)) := by
  unfold conflictOf
  split_ifs with h
  · simp [h, eq_comm]
  · constructor
    · intro hc
      exact hc.elim
    · rintro ⟨hcond, _⟩
      exact absurd hcond h

theorem pairScan_mem (l : List (String × BlockOccupancy)) (c : String × String × String × (ℚ × ℚ)) :
    c ∈ pairScan l ↔ ∃ x y, List.Sublist [x, y] l ∧ conflictOf x y = some c := by
  induction l with
  | nil =>
    simp only [pairScan, List.not_mem_nil, false_iff, not_exists]
    intro x y ⟨hs, _⟩
    simp [List.sublist_nil] at hs
  | cons x l ih =>
    simp only [pairScan, List.mem_append, List.mem_filterMap, ih]
    constructor
    · rintro (⟨y, hy, hc⟩ | ⟨u, v, hs, hc⟩)
      · exact ⟨x, y, List.cons_sublist_cons.mpr (List.singleton_sublist.mpr hy), hc⟩
      · exact ⟨u, v, List.Sublist.cons x hs, hc⟩
    · rintro ⟨u, v, hs, hc⟩
      rcases List.sublist_cons_iff.mp hs with hs' | ⟨r, hr, hrs⟩
      · exact Or.inr ⟨u, v, hs', hc⟩
      · cases hr
        exact Or.inl ⟨v, List.singleton_sublist.mp hrs, hc⟩

theorem sublist_pair_of_mem_mem {α : Type} {a b : α} {l : List α}
    (ha : a ∈ l) (hb : b ∈ l) (hne : a ≠ b) :
    List.Sublist [a, b] l ∨ List.Sublist [b, a] l := by
  induction l with
  | nil => simp at ha
  | cons x l ih =>
    rcases List.mem_cons.mp ha with hax | ha'
    · subst hax
      have hb' : b ∈ l := by
        rcases List.mem_cons.mp hb with hbx | hb' 
        · exact absurd hbx.symm hne
        · exact hb'
      exact Or.inl (List.cons_sublist_cons.mpr (List.singleton_sublist.mpr hb'))
    · rcases List.mem_cons.mp hb with hbx | hb'
      · subst hbx
        exact Or.inr (List.cons_sublist_cons.mpr (List.singleton_sublist.mpr ha'))
      · rcases ih ha' hb' with h | h
        · exact Or.inl (List.Sublist.cons x h)
        · exact Or.inr (List.Sublist.cons x h)

/-! ## Concrete sample data (used by witnesses and counterexamples) -/

def sampleHigh : STrain :=
  { train_id := "A", category := "passenger", priority := 5, planned_path := ["X", "Y"],
    occupancies := [{ block_id := "X-Y", start_time := 0, end_time := 10 }], delay_minutes := 0 }

def sampleLow : STrain :=
  { train_id := "B", category := "passenger", priority := 1, planned_path := ["X", "Y"],
    occupancies := [{ block_id := "X-Y", start_time := 5, end_time := 15 }], delay_minutes := 0 }

def sampleById : String → Option STrain :=
  fun i => if i = "A" then some sampleHigh else if i = "B" then some sampleLow else none


/-! ## C1: conflict detection criterion -/

/-- C1: `detect_block_conflicts` reports a conflict for a pair of distinct
trains exactly when both occupy the same `block_id` and
`max(startA, startB) < min(endA, endB)` holds strictly; the reported overlap
window is `(max, min)`; occupancies that merely touch at a single instant
are never reported (the membership characterisation forces the strict
inequality), and no train is ever paired with itself. First conjunct:
characterisation of the reported records over the flattened occupant pool;
second: no self-pairing; third: completeness for unordered pairs. -/
theorem C1_conflict_detection (trains : List STrain) (blk a b : String) (ws we : ℚ) :
    ((blk, a, b, (ws, we)) ∈ detect_block_conflicts trains ↔
      a ≠ b ∧ ∃ oa ob, List.Sublist [(a, oa), (b, ob)] (allOccupants trains)
        ∧ oa.block_id = blk ∧ ob.block_id = blk
        ∧ max oa.start_time ob.start_time < min oa.end_time ob.end_time
        ∧ ws = max oa.start_time ob.start_time ∧ we = min oa.end_time ob.end_time)
    ∧ (∀ blk2 a2 b2 w2, (blk2, a2, b2, w2) ∈ detect_block_conflicts trains → a2 ≠ b2)
    ∧ (∀ oa ob, a ≠ b → (a, oa) ∈ allOccupants trains → (b, ob) ∈ allOccupants trains →
        oa.block_id = blk → ob.block_id = blk →
        max oa.start_time ob.start_time < min oa.end_time ob.end_time →
        (blk, a, b, (max oa.start_time ob.start_time, min oa.end_time ob.end_time))
            ∈ detect_block_conflicts trains
          ∨ (blk, b, a, (max oa.start_time ob.start_time, min oa.end_time ob.end_time))
            ∈ detect_block_conflicts trains) := by
  refine ⟨?_, ?_, ?_⟩
  · unfold detect_block_conflicts
    rw [pairScan_mem]
    constructor
    · rintro ⟨⟨xa, xo⟩, ⟨ya, yo⟩, hs, hc⟩
      rcases (conflictOf_eq_some_iff _ _ _).mp hc with ⟨⟨hne, hblk, hov⟩, hceq⟩
      simp only [Prod.mk.injEq] at hceq
      obtain ⟨h1, h2, h3, h4, h5⟩ := hceq
      subst h1 h2 h3
      refine ⟨hne, xo, yo, hs, rfl, hblk.symm, hov, h4, h5⟩
    · rintro ⟨hne, oa, ob, hs, hoa, hob, hov, hws, hwe⟩
      refine ⟨(a, oa), (b, ob), hs, ?_⟩
      rw [conflictOf_eq_some_iff]
      exact ⟨⟨hne, hoa.trans hob.symm, hov⟩, by simp [hoa, hws, hwe]⟩
  · intro blk2 a2 b2 w2 hmem
    unfold detect_block_conflicts at hmem
    rw [pairScan_mem] at hmem
    rcases hmem with ⟨x, y, hs, hc⟩
    rcases (conflictOf_eq_some_iff _ _ _).mp hc with ⟨⟨hne, _, _⟩, hceq⟩
    simp only [Prod.mk.injEq] at hceq
    obtain ⟨_, h2, h3, _⟩ := hceq
    subst h2 h3
    exact hne
  · intro oa ob hne hmema hmemb hoa hob hov
    have hpairne : (a, oa) ≠ (b, ob) := fun h => hne (congrArg Prod.fst h)
    rcases sublist_pair_of_mem_mem hmema hmemb hpairne with hs | hs
    · left
      unfold detect_block_conflicts
      rw [pairScan_mem]
      refine ⟨(a, oa), (b, ob), hs, ?_⟩
      rw [conflictOf_eq_some_iff]
      exact ⟨⟨hne, hoa.trans hob.symm, hov⟩, by simp [hoa]⟩
    · right
      unfold detect_block_conflicts
      rw [pairScan_mem]
      refine ⟨(b, ob), (a, oa), hs, ?_⟩
      rw [conflictOf_eq_some_iff]
      refine ⟨⟨Ne.symm hne, hob.trans hoa.symm, ?_⟩, ?_⟩
      · rw [max_comm, min_comm]
        exact hov
      · simp [hob, max_comm, min_comm]

/-- Witness for C1: the spec's scenario — trains A `[0,10)` and B `[5,15)`
on block `X-Y` — yields a reported conflict with window `(5, 10)`. -/
theorem C1_witness :
    ("X-Y", "A", "B", (max (0:ℚ) 5, min (10:ℚ) 15)) ∈ detect_block_conflicts [sampleHigh, sampleLow]
    ∨ ("X-Y", "B", "A", (max (0:ℚ) 5, min (10:ℚ) 15)) ∈ detect_block_conflicts [sampleHigh, sampleLow] :=
  (C1_conflict_detection [sampleHigh, sampleLow] "X-Y" "A" "B" 0 0).2.2
    { block_id := "X-Y", start_time := 0, end_time := 10 }
    { block_id := "X-Y", start_time := 5, end_time := 15 }
    (by decide) (by decide) (by decide) rfl rfl (by decide)

/-! ## C2: precedence decision rules -/

/-- A losing pair names the loser on one of its two sides. -/
theorem losesIn_mem (byId : String → Option STrain) (t : String) (p : String × String)
    (h : losesIn byId t p = true) : t = p.1 ∨ t = p.2 := by
  unfold losesIn at h
  cases ha : byId p.1 with
  | none => rw [ha] at h; simp at h
  | some ta =>
    cases hb : byId p.2 with
    | none => rw [ha, hb] at h; simp at h
    | some tb =>
      rw [ha, hb] at h
      by_cases hbt : beats ta tb = true
      · simp only [hbt, if_true, decide_eq_true_eq] at h
        exact Or.inr h
      · rw [Bool.not_eq_true] at hbt
        simp only [hbt, Bool.false_eq_true, if_false, decide_eq_true_eq] at h
        exact Or.inl h

/-- C2: for every pair, higher priority wins; on equal priority greater
`delay_minutes` wins; on a further tie the deterministic lexicographic
`train_id` fallback decides (conjunct 3, unfolding `beats`). The loser of any
single pair ends HOLD (conjunct 4) and a train's final verdict is the minimum
over its pairwise outcomes: HOLD exactly when it loses at least one pair
(conjunct 1), with a train in no conflicts defaulting to PROCEED
(conjunct 2). -/
theorem C2_precedence_rules (pairs : List (String × String)) (byId : String → Option STrain) (t : String) :
    (finalVerdict (decide_precedence pairs byId) t = Verdict.HOLD ↔ pairs.any (losesIn byId t) = true)
    ∧ ((∀ p ∈ pairs, t ≠ p.1 ∧ t ≠ p.2) →
        finalVerdict (decide_precedence pairs byId) t = Verdict.PROCEED)
    ∧ (∀ ta tb : STrain,
        (ta.priority > tb.priority → beats ta tb = true)
        ∧ (ta.priority = tb.priority → ta.delay_minutes > tb.delay_minutes → beats ta tb = true)
        ∧ (ta.priority = tb.priority → ta.delay_minutes = tb.delay_minutes →
            beats ta tb = strLt ta.train_id tb.train_id))
    ∧ (∀ a b ta tb, (a, b) ∈ pairs → byId a = some ta → byId b = some tb →
        (beats ta tb = true → finalVerdict (decide_precedence pairs byId) b = Verdict.HOLD)
        ∧ (beats ta tb = false → finalVerdict (decide_precedence pairs byId) a = Verdict.HOLD)) := by
  refine ⟨?_, ?_, ?_, ?_⟩
  · rw [finalVerdict_decide_precedence]
    by_cases hany : pairs.any (losesIn byId t) = true <;> simp [hany]
  · intro hnone
    rw [finalVerdict_decide_precedence]
    have : pairs.any (losesIn byId t) = false := by
      rw [List.any_eq_false]
      intro p hp
      intro hl
      rcases losesIn_mem byId t p hl with h | h
      · exact (hnone p hp).1 h
      · exact (hnone p hp).2 h
    simp [this]
  · intro ta tb
    refine ⟨?_, ?_, ?_⟩
    · intro hp
      unfold beats
      rw [if_pos hp]
    · intro hpeq hd
      unfold beats
      rw [if_neg (by omega), if_neg (by omega), if_pos hd]
    · intro hpeq hdeq
      unfold beats
      rw [if_neg (by omega), if_neg (by omega), if_neg (by simp [hdeq]), if_neg (by simp [hdeq])]
  · intro a b ta tb hmem ha hb
    constructor
    · intro hbt
      rw [finalVerdict_decide_precedence, if_pos]
      rw [List.any_eq_true]
      refine ⟨(a, b), hmem, ?_⟩
      unfold losesIn
      rw [ha, hb]
      simp [hbt]
    · intro hbt
      rw [finalVerdict_decide_precedence, if_pos]
      rw [List.any_eq_true]
      refine ⟨(a, b), hmem, ?_⟩
      unfold losesIn
      rw [ha, hb]
      simp [hbt]

/-- Witness for C2: priority 5 beats priority 1, so in the single conflicting
pair (A, B) the train B is held. -/
theorem C2_witness :
    ((("A", "B") ∈ [("A", "B")]) ∧ beats sampleHigh sampleLow = true)
    ∧ finalVerdict (decide_precedence [("A", "B")] sampleById) "B" = Verdict.HOLD :=
  ⟨⟨by decide, by decide⟩,
    ((C2_precedence_rules [("A", "B")] sampleById "B").2.2.2 "A" "B" sampleHigh sampleLow
      (by decide) rfl rfl).1 (by decide)⟩

/-! ## C3: occupancy construction -/

theorem buildOcc_length (tt : List ((String × String) × ℚ)) :
    ∀ (route : List String) (c : ℚ), (buildOcc tt c route).length = route.length - 1
| [], _ => rfl
| [_], _ => rfl
| u :: v :: rest, c => by
  show (buildOcc tt c (u :: v :: rest)).length = (u :: v :: rest).length - 1
  unfold buildOcc
  simp only [List.length_cons]
  rw [buildOcc_length tt (v :: rest) _]
  simp

theorem buildOcc_first (tt : List ((String × String) × ℚ)) (route : List String) (c : ℚ)
    (o : BlockOccupancy) (h : (buildOcc tt c route)[0]? = some o) : o.start_time = c := by
  match route with
  | [] => simp [buildOcc] at h
  | [_] => simp [buildOcc] at h
  | u :: v :: rest =>
    unfold buildOcc at h
    simp only [List.getElem?_cons_zero, Option.some.injEq] at h
    rw [← h]

theorem buildOcc_get (tt : List ((String × String) × ℚ)) :
    ∀ (route : List String) (c : ℚ) (i : ℕ) (u v : String),
      route[i]? = some u → route[i+1]? = some v →
      ∃ o, (buildOcc tt c route)[i]? = some o ∧ o.block_id = u ++ "-" ++ v
        ∧ o.end_time = o.start_time + (alookup tt (u, v)).getD 5
| [], _, i, u, v => by intro h; simp at h
| [x], _, i, u, v => by
  intro h1 h2
  rcases i with _ | j
  · simp at h2
  · simp at h1
| x :: y :: rest, c, i, u, v => by
  intro h1 h2
  rcases i with _ | j
  · simp only [List.getElem?_cons_zero, Option.some.injEq] at h1
    rw [List.getElem?_cons_succ, List.getElem?_cons_zero] at h2
    injection h2 with h2
    subst h1 h2
    exact ⟨{ block_id := x ++ "-" ++ y, start_time := c, end_time := c + (alookup tt (x, y)).getD 5 },
      by unfold buildOcc; simp, rfl, rfl⟩
  · rw [List.getElem?_cons_succ] at h1 h2
    rcases buildOcc_get tt (y :: rest) (c + (alookup tt (x, y)).getD 5) j u v h1 h2 with ⟨o, ho, hb, he⟩
    exact ⟨o, by unfold buildOcc; simpa using ho, hb, he⟩

theorem buildOcc_chain (tt : List ((String × String) × ℚ)) :
    ∀ (route : List String) (c : ℚ) (i : ℕ) (o1 o2 : BlockOccupancy),
      (buildOcc tt c route)[i]? = some o1 → (buildOcc tt c route)[i+1]? = some o2 →
      o2.start_time = o1.end_time
| [], _, i, o1, o2 => by intro h _; simp [buildOcc] at h
| [x], _, i, o1, o2 => by intro h _; simp [buildOcc] at h
| x :: y :: rest, c, i, o1, o2 => by
  intro h1 h2
  unfold buildOcc at h1 h2
  rcases i with _ | j
  · simp only [List.getElem?_cons_zero, Option.some.injEq, List.getElem?_cons_succ] at h1 h2
    rw [buildOcc_first tt (y :: rest) _ o2 h2, ← h1]
  · simp only [List.getElem?_cons_succ] at h1 h2
    exact buildOcc_chain tt (y :: rest) _ j o1 o2 h1 h2

/-- C3: a built route of n+1 stations yields exactly n occupancies; the i-th
has `block_id` derived from the ordered name pair `(si, si+1)`, its end time
is its start plus the travel time — the `edge_tt` entry when the edge exists,
the fixed default 5 when absent —, the clock starts at 0 and each occupancy
starts exactly when the previous one ends (no dwell time added). The final
conjunct ties the statement to the pipeline: every built train's occupancies
are exactly `buildOcc` over its resolved route with the network's travel-time
map. -/
theorem C3_occupancy_construction (sections : List Section) (ts : List ScenarioTrain)
    (tt : List ((String × String) × ℚ)) (route : List String) (h2 : 2 ≤ route.length) :
    (buildOcc tt 0 route).length = route.length - 1
    ∧ (∀ i u v, route[i]? = some u → route[i+1]? = some v →
        ∃ o, (buildOcc tt 0 route)[i]? = some o ∧ o.block_id = u ++ "-" ++ v
          ∧ o.end_time = o.start_time + (alookup tt (u, v)).getD 5)
    ∧ (∀ o, (buildOcc tt 0 route)[0]? = some o → o.start_time = 0)
    ∧ (∀ i o1 o2, (buildOcc tt 0 route)[i]? = some o1 →
        (buildOcc tt 0 route)[i+1]? = some o2 → o2.start_time = o1.end_time)
    ∧ (∀ tr ∈ built_trains sections ts,
        tr.occupancies = buildOcc (edgeTT sections) 0 tr.planned_path
        ∧ tr.occupancies.length = tr.planned_path.length - 1) := by
  refine ⟨buildOcc_length tt route 0, fun i u v h1 hv => buildOcc_get tt route 0 i u v h1 hv,
    fun o h => buildOcc_first tt route 0 o h,
    fun i o1 o2 ha hb => buildOcc_chain tt route 0 i o1 o2 ha hb, ?_⟩
  intro tr htr
  unfold built_trains at htr
  rcases List.mem_filterMap.mp htr with ⟨t, ht, hf⟩
  by_cases hroute : shortest_path sections t.source t.destination = []
  · rw [if_pos hroute] at hf
    exact Option.noConfusion hf
  · rw [if_neg hroute] at hf
    injection hf with hf
    subst hf
    exact ⟨rfl, buildOcc_length (edgeTT sections) _ 0⟩

/-- Witness for C3 on the route A-B-C with a 3-minute A→B edge. -/
theorem C3_witness :
    (2 ≤ (["A", "B", "C"] : List String).length)
    ∧ (∃ o, (buildOcc [(("A", "B"), (3:ℚ))] 0 ["A", "B", "C"])[0]? = some o
        ∧ o.block_id = "A" ++ "-" ++ "B"
        ∧ o.end_time = o.start_time + (alookup [(("A", "B"), (3:ℚ))] ("A", "B")).getD 5) :=
  ⟨by decide,
    (C3_occupancy_construction [] [] [(("A", "B"), (3:ℚ))] ["A", "B", "C"] (by decide)).2.1
      0 "A" "B" rfl rfl⟩

/-! ## C10: hardcoded zero delay at the analyze-scenario interface -/

/-- A one-edge network and a request used by several witnesses. -/
def secAB : Section :=
  { from_code := "A", from_name := "A", to_code := "B", to_name := "B",
    distance_km := 5, travel_min := 3, leg_type := "real" }

def trainReq (id src dst : String) : ScenarioTrain :=
  { train_id := id, name := none, train_type := "Passenger", priority_level := "Medium",
    source := src, destination := dst }

/-- C10: every train constructed by the analyze-scenario pipeline has
`delay_minutes = 0` (`ScenarioTrain` carries no delay field and the
construction hardcodes `0.0`), so between two equal-priority built trains the
delay tie-break never decides: `beats` degenerates to the lexicographic
`train_id` fallback. -/
theorem C10_zero_delay (sections : List Section) (ts : List ScenarioTrain) :
    (∀ tr ∈ built_trains sections ts, tr.delay_minutes = 0)
    ∧ (∀ tr1 ∈ built_trains sections ts, ∀ tr2 ∈ built_trains sections ts,
        tr1.priority = tr2.priority →
        beats tr1 tr2 = strLt tr1.train_id tr2.train_id) := by
  have hzero : ∀ tr ∈ built_trains sections ts, tr.delay_minutes = 0 := by
    intro tr htr
    unfold built_trains at htr
    rcases List.mem_filterMap.mp htr with ⟨t, _, hf⟩
    by_cases hroute : shortest_path sections t.source t.destination = []
    · rw [if_pos hroute] at hf
      exact Option.noConfusion hf
    · rw [if_neg hroute] at hf
      injection hf with hf
      subst hf
      rfl
  refine ⟨hzero, ?_⟩
  intro tr1 h1 tr2 h2 hp
  unfold beats
  rw [if_neg (by omega), if_neg (by omega), hzero tr1 h1, hzero tr2 h2]
  simp

/-- Witness for C10 on a concrete one-train scenario. -/
theorem C10_witness :
    ({ train_id := "T1", category := lowerStr "Passenger", priority := 3,
       planned_path := ["A", "B"],
       occupancies := [{ block_id := "A-B", start_time := 0, end_time := 3 }],
       delay_minutes := 0 } : STrain) ∈ built_trains [secAB] [trainReq "T1" "A" "B"]
    ∧ ({ train_id := "T1", category := lowerStr "Passenger", priority := 3,
         planned_path := ["A", "B"],
         occupancies := [{ block_id := "A-B", start_time := 0, end_time := 3 }],
         delay_minutes := 0 } : STrain).delay_minutes = 0 :=
  ⟨by decide, (C10_zero_delay [secAB] [trainReq "T1" "A" "B"]).1 _ (by decide)⟩

/-! ## C5: exclusion of trains with unresolvable routes -/

/-- Counterexample for C5 as stated: a request with `source = destination`
(and the source having outgoing edges) resolves to the one-station path
`["A"]` — fewer than 2 stations — yet the train is NOT excluded: it is built
into the batch (with zero occupancies). The claim's "resolved path has fewer
than 2 stations ⟹ excluded" is false on the code, which only excludes an
empty route. -/
theorem C5_counterexample :
    (shortest_path [secAB] "A" "A").length = 1
    ∧ built_trains [secAB] [trainReq "T1" "A" "A"] ≠ [] := by
  exact ⟨by decide, by decide⟩

/-- C5 (amended): a train is excluded exactly when the breadth-first search
returns the empty route — the source name is not a key of the name graph or
the destination is unreachable; a one-station route (source = destination
with outgoing edges) is included. Exclusion has no effect on the other trains
in the batch: the construction distributes over the request list, and
dropping an excluded train leaves the result unchanged. -/
theorem C5_unresolvable_route_exclusion (sections : List Section)
    (ts1 ts2 : List ScenarioTrain) (t : ScenarioTrain) :
    (built_trains sections (ts1 ++ ts2)
      = built_trains sections ts1 ++ built_trains sections ts2)
    ∧ (shortest_path sections t.source t.destination = [] →
        built_trains sections (ts1 ++ t :: ts2) = built_trains sections (ts1 ++ ts2))
    ∧ (built_trains sections [t] = [] ↔ shortest_path sections t.source t.destination = [])
    ∧ (t.source ∉ nameGraphKeys sections → shortest_path sections t.source t.destination = []) := by
  refine ⟨List.filterMap_append .., ?_, ?_, ?_⟩
  · intro hroute
    unfold built_trains
    rw [List.filterMap_append, List.filterMap_append, List.filterMap_cons]
    rw [if_pos hroute]
  · unfold built_trains
    rw [List.filterMap_cons]
    by_cases hroute : shortest_path sections t.source t.destination = []
    · simp [hroute]
    · simp [hroute]
  · intro hkeys
    unfold shortest_path
    rw [if_neg hkeys]

/-- Witness for C5: a train with an unknown source station is excluded and
leaves the one resolvable train of the batch untouched. -/
theorem C5_witness :
    (shortest_path [secAB] "Q" "B" = [])
    ∧ built_trains [secAB] [trainReq "T1" "A" "B", trainReq "T2" "Q" "B"]
      = built_trains [secAB] [trainReq "T1" "A" "B"] :=
  ⟨(C5_unresolvable_route_exclusion [secAB] [] [] (trainReq "T2" "Q" "B")).2.2.2 (by decide),
    (C5_unresolvable_route_exclusion [secAB] [trainReq "T1" "A" "B"] []
      (trainReq "T2" "Q" "B")).2.1 (by decide)⟩

/-! ## C9: graceful degradation on missing source data -/

/-- C9: an unavailable source path (modelled as `none`) makes every loader
return the empty collection rather than raising; merging two unavailable
station files yields the empty station set, and the downstream pipeline
(augmentation, adjacency, train building, conflict detection) operates on the
fully empty network, producing empty outputs without failing. -/
theorem C9_graceful_degradation (hav : ℚ → ℚ → ℚ → ℚ → ℚ) (k : ℕ) (v : ℚ) (c : String)
    (ts : List ScenarioTrain) :
    load_sih_stations none = [] ∧ load_trainsih_stations none = []
    ∧ load_real_sections none = [] ∧ merge_stations none none = []
    ∧ augment_sections_with_knn hav (merge_stations none none) (load_real_sections none) k v = []
    ∧ build_adjacency (load_real_sections none) c = []
    ∧ built_trains (load_real_sections none) ts = []
    ∧ detect_block_conflicts (built_trains (load_real_sections none) ts) = [] := by
  have hsp : ∀ s d, shortest_path ([] : List Section) s d = [] := by
    intro s d
    simp [shortest_path, nameGraphKeys]
  have hbt : built_trains (load_real_sections none) ts = [] := by
    unfold built_trains
    refine List.filterMap_eq_nil_iff.mpr (fun t _ => ?_)
    simp [show load_real_sections none = [] from rfl, hsp]
  exact ⟨rfl, rfl, rfl, rfl, rfl, rfl, hbt, by rw [hbt]; rfl⟩

/-! ## Augmentation: sorting, structure invariant and counting
(shared by C4, C6, C7) -/

/-- The directed pair a section occupies in the `existing` set. -/
def pairOf (s : Section) : String × String := (s.from_code, s.to_code)

theorem dInsertLe_perm (a : ℚ × String) (l : List (ℚ × String)) :
    List.Perm (dInsertLe a l) (a :: l) := by
  induction l with
  | nil => rfl
  | cons b bs ih =>
    unfold dInsertLe
    by_cases h : a.1 ≤ b.1
    · rw [if_pos h]
    · rw [if_neg h]
      exact (ih.cons b).trans (List.Perm.swap a b bs)

theorem sortByDist_perm (l : List (ℚ × String)) : List.Perm (sortByDist l) l := by
  induction l with
  | nil => rfl
  | cons a xs ih =>
    unfold sortByDist
    exact (dInsertLe_perm a (sortByDist xs)).trans (ih.cons a)

theorem dInsertLe_pairwise (a : ℚ × String) (l : List (ℚ × String))
    (h : List.Pairwise (fun x y => x.1 ≤ y.1) l) :
    List.Pairwise (fun x y => x.1 ≤ y.1) (dInsertLe a l) := by
  induction l with
  | nil => simp [dInsertLe]
  | cons b bs ih =>
    rcases List.pairwise_cons.mp h with ⟨hb, hbs⟩
    unfold dInsertLe
    by_cases hab : a.1 ≤ b.1
    · rw [if_pos hab]
      refine List.pairwise_cons.mpr ⟨?_, h⟩
      intro x hx
      rcases List.mem_cons.mp hx with hx | hx
      · rw [hx]
        exact hab
      · exact le_trans hab (hb x hx)
    · rw [if_neg hab]
      refine List.pairwise_cons.mpr ⟨?_, ih hbs⟩
      intro x hx
      have hx' : x ∈ a :: bs := (dInsertLe_perm a bs).mem_iff.mp hx
      rcases List.mem_cons.mp hx' with hx' | hx'
      · rw [hx']
        exact le_of_lt (lt_of_not_le hab)
      · exact hb x hx'

theorem sortByDist_sorted (l : List (ℚ × String)) :
    List.Pairwise (fun x y => x.1 ≤ y.1) (sortByDist l) := by
  induction l with
  | nil => simp [sortByDist]
  | cons a xs ih => exact dInsertLe_pairwise a (sortByDist xs) ih

theorem dInsertLe_filter_eq (a : ℚ × String) (l : List (ℚ × String)) (d : ℚ) (ha : a.1 = d) :
    (dInsertLe a l).filter (fun x => decide (x.1 = d)) =
      a :: l.filter (fun x => decide (x.1 = d)) := by
  induction l with
  | nil => simp [dInsertLe, List.filter, ha]
  | cons b bs ih =>
    unfold dInsertLe
    by_cases hab : a.1 ≤ b.1
    · rw [if_pos hab]
      simp [List.filter_cons, ha]
    · rw [if_neg hab]
      have hbd : ¬b.1 = d := by
        intro hbd
        exact hab (le_of_eq (ha.trans hbd.symm))
      simp [List.filter_cons, hbd, ih]

theorem dInsertLe_filter_ne (a : ℚ × String) (l : List (ℚ × String)) (d : ℚ) (ha : ¬a.1 = d) :
    (dInsertLe a l).filter (fun x => decide (x.1 = d)) =
      l.filter (fun x => decide (x.1 = d)) := by
  induction l with
  | nil => simp [dInsertLe, List.filter, ha]
  | cons b bs ih =>
    unfold dInsertLe
    by_cases hab : a.1 ≤ b.1
    · rw [if_pos hab]
      simp [List.filter_cons, ha]
    · rw [if_neg hab]
      simp [List.filter_cons, ih]

theorem sortByDist_stable (l : List (ℚ × String)) (d : ℚ) :
    (sortByDist l).filter (fun x => decide (x.1 = d)) =
      l.filter (fun x => decide (x.1 = d)) := by
  induction l with
  | nil => rfl
  | cons a xs ih =>
    unfold sortByDist
    by_cases ha : a.1 = d
    · rw [dInsertLe_filter_eq a _ d ha, ih]
      simp [List.filter_cons, ha]
    · rw [dInsertLe_filter_ne a _ d ha, ih]
      simp [List.filter_cons, ha]

/-- Invariant carried through the augmentation fold: the section list is the
base plus a suffix of inferred, formula-priced, station-endpointed sections
whose directed pairs are pairwise distinct, absent from the base, and all
recorded in the `existing` set (which also contains every base pair). -/
def AugInv (stations : List (String × Station)) (base : List Section) (speed : ℚ)
    (st : List (String × String) × List Section) : Prop :=
  ∃ suf, st.2 = base ++ suf
    ∧ (∀ s ∈ suf, s.leg_type = "inferred" ∧ s.travel_min = s.distance_km / speed * 60
        ∧ s.from_code ∈ stations.map Prod.fst ∧ s.to_code ∈ stations.map Prod.fst)
    ∧ (suf.map pairOf).Nodup
    ∧ (∀ p ∈ suf.map pairOf, p ∉ base.map pairOf)
    ∧ (∀ p ∈ base.map pairOf, p ∈ st.1)
    ∧ (∀ p ∈ suf.map pairOf, p ∈ st.1)

theorem pickLoop_inv (stations : List (String × Station)) (base : List Section) (k : ℕ)
    (code codeName : String) (speed : ℚ) :
    ∀ (dl : List (ℚ × String)) (added : ℕ) (ex : List (String × String)) (res : List Section),
      code ∈ stations.map Prod.fst →
      (∀ x ∈ dl, x.2 ∈ stations.map Prod.fst) →
      AugInv stations base speed (ex, res) →
      AugInv stations base speed (pickLoop stations k code codeName speed dl added ex res)
| [], added, ex, res => fun _ _ hinv => hinv
| (d, oc) :: rest, added, ex, res => by
  intro hcode hdl hinv
  unfold pickLoop
  by_cases hk : k ≤ added
  · rw [if_pos hk]
    exact hinv
  · rw [if_neg hk]
    by_cases hmem : (code, oc) ∈ ex
    · rw [if_pos hmem]
      exact pickLoop_inv stations base k code codeName speed rest added ex res hcode
        (fun x hx => hdl x (List.mem_cons_of_mem _ hx)) hinv
    · rw [if_neg hmem]
      refine pickLoop_inv stations base k code codeName speed rest (added + 1) _ _ hcode
        (fun x hx => hdl x (List.mem_cons_of_mem _ hx)) ?_
      rcases hinv with ⟨suf, hres, hprops, hnd, hfresh, hbase, hsuf⟩
      have hres' : res = base ++ suf := hres
      refine ⟨suf ++ [⟨code, codeName, oc, (stLookup stations oc).name, d,
        d / speed * 60, "inferred"⟩], ?_, ?_, ?_, ?_, ?_, ?_⟩
      · show res ++ [_] = base ++ (suf ++ [_])
        rw [hres', List.append_assoc]
      · intro s hs
        rcases List.mem_append.mp hs with hs | hs
        · exact hprops s hs
        · rcases List.mem_singleton.mp hs with rfl
          exact ⟨rfl, rfl, hcode, hdl (d, oc) (List.mem_cons_self _ _)⟩
      · rw [List.map_append, List.nodup_append]
        refine ⟨hnd, by simp, ?_⟩
        intro p hp
        simp only [List.map_cons, List.map_nil, List.mem_singleton]
        intro hpeq
        have h1 : p ∈ ex := hsuf p hp
        rw [hpeq] at h1
        exact hmem h1
      · intro p hp
        rw [List.map_append] at hp
        rcases List.mem_append.mp hp with hp' | hp'
        · exact hfresh p hp'
        · simp only [List.map_cons, List.map_nil, List.mem_singleton] at hp'
          subst hp'
          intro hb
          exact hmem (hbase _ hb)
      · intro p hp
        exact List.mem_append_left _ (hbase p hp)
      · intro p hp
        rw [List.map_append] at hp
        rcases List.mem_append.mp hp with hp' | hp'
        · exact List.mem_append_left _ (hsuf p hp')
        · simp only [List.map_cons, List.map_nil, List.mem_singleton] at hp'
          subst hp'
          exact List.mem_append_right _ (List.mem_singleton.mpr rfl)

theorem knnStep_inv (hav : ℚ → ℚ → ℚ → ℚ → ℚ) (stations : List (String × Station))
    (base : List Section) (k : ℕ) (speed : ℚ) (acc : List (String × String) × List Section)
    (entry : String × Station) (hcode : entry.1 ∈ stations.map Prod.fst)
    (hinv : AugInv stations base speed acc) :
    AugInv stations base speed (knnStep hav stations k speed acc entry) := by
  unfold knnStep
  cases hla : entry.2.lat with
  | none => exact hinv
  | some la =>
    cases hlo : entry.2.lon with
    | none => exact hinv
    | some lo =>
      simp only
      have hdl : ∀ x ∈ sortByDist (stations.filterMap
          (fun p =>
            if p.1 = entry.1 then none
            else
              match p.2.lat, p.2.lon with
              | some la2, some lo2 => some (hav la lo la2 lo2, p.1)
              | _, _ => none)),
          x.2 ∈ stations.map Prod.fst := by
        intro x hx
        have hx' := (sortByDist_perm _).mem_iff.mp hx
        rcases List.mem_filterMap.mp hx' with ⟨p, hp, hf⟩
        by_cases hpe : p.1 = entry.1
        · rw [if_pos hpe] at hf
          exact Option.noConfusion hf
        · rw [if_neg hpe] at hf
          cases h2 : p.2.lat with
          | none => rw [h2] at hf; exact Option.noConfusion hf
          | some la2 =>
            cases h3 : p.2.lon with
            | none => rw [h2, h3] at hf; exact Option.noConfusion hf
            | some lo2 =>
              rw [h2, h3] at hf
              injection hf with hf
              rw [← hf]
              exact List.mem_map.mpr ⟨p, hp, rfl⟩
      rcases acc with ⟨ex, res⟩
      exact pickLoop_inv stations base k entry.1 entry.2.name speed _ 0 ex res hcode hdl hinv

theorem augment_structure (hav : ℚ → ℚ → ℚ → ℚ → ℚ) (stations : List (String × Station))
    (base : List Section) (k : ℕ) (speed : ℚ) :
    ∃ suf, augment_sections_with_knn hav stations base k speed = base ++ suf
      ∧ (∀ s ∈ suf, s.leg_type = "inferred" ∧ s.travel_min = s.distance_km / speed * 60
          ∧ s.from_code ∈ stations.map Prod.fst ∧ s.to_code ∈ stations.map Prod.fst)
      ∧ (suf.map pairOf).Nodup
      ∧ (∀ p ∈ suf.map pairOf, p ∉ base.map pairOf) := by
  have h := foldl_preserves (knnStep hav stations k speed) stations
    (base.map (fun s => (s.from_code, s.to_code)), base)
    (fun acc e he hacc => knnStep_inv hav stations base k speed acc e
      (List.mem_map.mpr ⟨e, he, rfl⟩) hacc)
    (⟨[], (List.append_nil base).symm, fun s hs => absurd hs (List.not_mem_nil s),
      List.nodup_nil, fun p hp => absurd hp (List.not_mem_nil p),
      fun p hp => by simpa [pairOf] using hp, fun p hp => absurd hp (List.not_mem_nil p)⟩ :
      AugInv stations base speed _)
  rcases h with ⟨suf, hres, hprops, hnd, hfresh, _, _⟩
  exact ⟨suf, hres, hprops, hnd, hfresh⟩

theorem pickLoop_count (stations : List (String × Station)) (k : ℕ) (code codeName : String)
    (speed : ℚ) (c : String) :
    ∀ (dl : List (ℚ × String)) (added : ℕ) (ex : List (String × String)) (res : List Section),
      ((pickLoop stations k code codeName speed dl added ex res).2.countP
          (fun s => decide (s.from_code = c)))
        ≤ res.countP (fun s => decide (s.from_code = c)) + (if code = c then k - added else 0)
| [], added, ex, res => by simp [pickLoop]
| (d, oc) :: rest, added, ex, res => by
  unfold pickLoop
  by_cases hk : k ≤ added
  · rw [if_pos hk]
    simp
  · rw [if_neg hk]
    by_cases hmem : (code, oc) ∈ ex
    · rw [if_pos hmem]
      exact pickLoop_count stations k code codeName speed c rest added ex res
    · rw [if_neg hmem]
      refine le_trans (pickLoop_count stations k code codeName speed c rest (added + 1) _ _) ?_
      rw [List.countP_append, List.countP_cons, List.countP_nil]
      by_cases hc : code = c
      · subst hc
        have hd : decide ((⟨code, codeName, oc, (stLookup stations oc).name, d,
          d / speed * 60, "inferred"⟩ : Section).from_code = code) = true := by simp
        rw [hd]
        simp only [if_true]
        omega
      · have hd : decide ((⟨code, codeName, oc, (stLookup stations oc).name, d,
          d / speed * 60, "inferred"⟩ : Section).from_code = c) = false := by simp [hc]
        rw [hd, if_neg hc]
        simp
      

theorem knnStep_count (hav : ℚ → ℚ → ℚ → ℚ → ℚ) (stations : List (String × Station)) (k : ℕ)
    (speed : ℚ) (c : String) (acc : List (String × String) × List Section)
    (entry : String × Station) :
    ((knnStep hav stations k speed acc entry).2.countP (fun s => decide (s.from_code = c)))
      ≤ acc.2.countP (fun s => decide (s.from_code = c)) + (if entry.1 = c then k else 0) := by
  unfold knnStep
  cases entry.2.lat with
  | none => simp
  | some la =>
    cases entry.2.lon with
    | none => simp
    | some lo =>
      simp only
      rcases acc with ⟨ex, res⟩
      refine le_trans (pickLoop_count stations k entry.1 entry.2.name speed c _ 0 ex res) ?_
      by_cases hc : entry.1 = c <;> simp [hc]

theorem augment_foldl_count (hav : ℚ → ℚ → ℚ → ℚ → ℚ) (stations : List (String × Station))
    (k : ℕ) (speed : ℚ) (c : String) :
    ∀ (l : List (String × Station)) (init : List (String × String) × List Section),
      ((l.foldl (knnStep hav stations k speed) init).2.countP (fun s => decide (s.from_code = c)))
        ≤ init.2.countP (fun s => decide (s.from_code = c))
          + k * l.countP (fun e => decide (e.1 = c))
| [], init => by simp
| e :: rest, init => by
  rw [List.foldl_cons, List.countP_cons]
  refine le_trans (augment_foldl_count hav stations k speed c rest _) ?_
  have hstep := knnStep_count hav stations k speed c init e
  by_cases hc : e.1 = c
  · have h1 : (if decide (e.1 = c) = true then 1 else 0) = 1 := by simp [hc]
    rw [h1, Nat.mul_add, Nat.mul_one, if_pos hc] at *
    omega
  · have h1 : (if decide (e.1 = c) = true then 1 else 0) = 0 := by simp [hc]
    rw [h1, Nat.add_zero] at *
    rw [if_neg hc] at hstep
    omega

theorem countP_key_le_one {κ α : Type} [DecidableEq κ] (l : List (κ × α)) (c : κ)
    (hnd : (l.map Prod.fst).Nodup) : l.countP (fun e => decide (e.1 = c)) ≤ 1 := by
  induction l with
  | nil => simp
  | cons e rest ih =>
    rw [List.countP_cons]
    rw [List.map_cons] at hnd
    rcases List.nodup_cons.mp hnd with ⟨hx, hrest⟩
    by_cases hc : e.1 = c
    · have hz : rest.countP (fun e => decide (e.1 = c)) = 0 := by
        rw [List.countP_eq_zero]
        intro a ha
        simp only [decide_eq_true_eq]
        intro hac
        exact hx (List.mem_map.mpr ⟨a, ha, hac.trans hc.symm⟩)
      simp [hz, hc]
    · have h1 : (if decide (e.1 = c) = true then 1 else 0) = 0 := by simp [hc]
      rw [h1, Nat.add_zero]
      exact ih hrest

theorem augment_countP_le (hav : ℚ → ℚ → ℚ → ℚ → ℚ) (stations : List (String × Station))
    (base : List Section) (k : ℕ) (speed : ℚ) (c : String)
    (hnd : (stations.map Prod.fst).Nodup) :
    ((augment_sections_with_knn hav stations base k speed).countP
        (fun s => decide (s.from_code = c)))
      ≤ base.countP (fun s => decide (s.from_code = c)) + k := by
  unfold augment_sections_with_knn
  refine le_trans (augment_foldl_count hav stations k speed c stations _) ?_
  have hcount := countP_key_le_one stations c hnd
  have hmul : k * stations.countP (fun e => decide (e.1 = c)) ≤ k * 1 :=
    Nat.mul_le_mul_left k hcount
  rw [Nat.mul_one] at hmul
  have hbase : ((base.map (fun s => (s.from_code, s.to_code)), base) :
      List (String × String) × List Section).2 = base := rfl
  rw [hbase]
  omega

/-! ## C4: augmentation preserves the base and never duplicates a pair -/

/-- C4: the augmented list is the base followed by appended sections; every
appended section is `inferred` with a directed pair absent from the base and
from all earlier appended sections (freshness plus `Nodup` of the appended
pairs); consequently a base with pairwise-distinct directed pairs stays
duplicate-free after one and after two augmentation passes. -/
theorem C4_augmentation_no_duplicates (hav : ℚ → ℚ → ℚ → ℚ → ℚ)
    (stations : List (String × Station)) (base : List Section) (k : ℕ) (speed : ℚ) :
    (∃ suf, augment_sections_with_knn hav stations base k speed = base ++ suf
      ∧ (∀ s ∈ suf, s.leg_type = "inferred" ∧ pairOf s ∉ base.map pairOf)
      ∧ (suf.map pairOf).Nodup)
    ∧ ((base.map pairOf).Nodup →
        ((augment_sections_with_knn hav stations base k speed).map pairOf).Nodup)
    ∧ ((base.map pairOf).Nodup →
        ((augment_sections_with_knn hav stations
            (augment_sections_with_knn hav stations base k speed) k speed).map pairOf).Nodup) := by
  have hnod : ∀ b : List Section, (b.map pairOf).Nodup →
      ((augment_sections_with_knn hav stations b k speed).map pairOf).Nodup := by
    intro b hb
    rcases augment_structure hav stations b k speed with ⟨suf, hres, _, hnd, hfresh⟩
    rw [hres, List.map_append, List.nodup_append]
    exact ⟨hb, hnd, fun p hp hp2 => hfresh p hp2 hp⟩
  rcases augment_structure hav stations base k speed with ⟨suf, hres, hprops, hnd, hfresh⟩
  refine ⟨⟨suf, hres, fun s hs => ⟨(hprops s hs).1, ?_⟩, hnd⟩, hnod base,
    fun hb => hnod _ (hnod base hb)⟩
  exact fun hb => hfresh (pairOf s) (List.mem_map.mpr ⟨s, hs, rfl⟩) hb

def cStX : Station :=
  { code := "X", name := "X", platform_count := 0, halt_min := 0, lat := some 0, lon := some 0 }

def cStZ : Station :=
  { code := "Z", name := "Z", platform_count := 0, halt_min := 0, lat := some 1, lon := some 1 }

def cStA : Station :=
  { code := "A", name := "A", platform_count := 0, halt_min := 0, lat := some 1, lon := some 1 }

def stationsXZA : List (String × Station) := [("X", cStX), ("Z", cStZ), ("A", cStA)]

def hvSq : ℚ → ℚ → ℚ → ℚ → ℚ :=
  fun la1 lo1 la2 lo2 => (la1 - la2) * (la1 - la2) + (lo1 - lo2) * (lo1 - lo2)

/-- Witness for C4 on a concrete three-station network over a one-section
base. -/
theorem C4_witness :
    (([secAB].map pairOf).Nodup)
    ∧ ((augment_sections_with_knn hvSq stationsXZA [secAB] 1 70).map pairOf).Nodup :=
  ⟨by decide, (C4_augmentation_no_duplicates hvSq stationsXZA [secAB] 1 70).2.1 (by decide)⟩

def lexLe (a b : ℚ × String) : Bool :=
  if a.1 < b.1 then true else if b.1 < a.1 then false else !(strLt b.2 a.2)

def dInsertLexi (a : ℚ × String) : List (ℚ × String) → List (ℚ × String)
| [] => [a]
| b :: bs => if lexLe a b then a :: b :: bs else b :: dInsertLexi a bs

/-- The candidate ordering the claim asserts: ascending by distance with ties
broken by station code. Defined from the spec's words, to be compared with
`sortByDist`, the ordering the code actually computes. -/
def sortByDistThenCode : List (ℚ × String) → List (ℚ × String)
| [] => []
| a :: xs => dInsertLexi a (sortByDistThenCode xs)

def knnStepSpec (hav : ℚ → ℚ → ℚ → ℚ → ℚ) (stations : List (String × Station)) (k : ℕ)
    (avg_speed_kmph : ℚ) (acc : List (String × String) × List Section)
    (entry : String × Station) : List (String × String) × List Section :=
  match entry.2.lat, entry.2.lon with
  | some la, some lo =>
    let dlist := stations.filterMap
      (fun p =>
        if p.1 = entry.1 then none
        else
          match p.2.lat, p.2.lon with
          | some la2, some lo2 => some (hav la lo la2 lo2, p.1)
          | _, _ => none)
    pickLoop stations k entry.1 entry.2.name avg_speed_kmph (sortByDistThenCode dlist) 0 acc.1 acc.2
  | _, _ => acc

/-- The augmentation the claim describes, with the distance-then-code tie
break; differs from `augment_sections_with_knn` only in the sort. -/
def augmentSpecTieByCode (hav : ℚ → ℚ → ℚ → ℚ → ℚ)
    (stations : List (String × Station)) (base_sections : List Section)
    (k : ℕ) (avg_speed_kmph : ℚ) : List Section :=
  (stations.foldl (knnStepSpec hav stations k avg_speed_kmph)
    (base_sections.map (fun s => (s.from_code, s.to_code)), base_sections)).2

/-! ## C7: kNN candidate ordering and selection -/

/-- Counterexample for C7 as stated: the code sorts candidates with
`dlist.sort(key=lambda x: x[0])` — stable by distance only, ties kept in the
station-dictionary iteration order, NOT re-ordered by station code. With
stations Z and A at identical coordinates (hence tied distance from X) and
`k = 1`, the code connects X to Z (first in insertion order) while the
claim's distance-then-code ordering would connect X to A. -/
theorem C7_counterexample :
    ((augment_sections_with_knn hvSq stationsXZA [] 1 70).map pairOf
      = [("X", "Z"), ("Z", "A"), ("A", "Z")])
    ∧ ((augmentSpecTieByCode hvSq stationsXZA [] 1 70).map pairOf
      = [("X", "A"), ("Z", "A"), ("A", "Z")])
    ∧ (("X", "Z") : String × String) ≠ ("X", "A") :=
  ⟨by decide, by decide, by decide⟩

/-- C7 (amended): candidates are ordered ascending by distance by a stable
sort on the distance alone — ties keep the station-enumeration order (the
filter identity), not the station-code order; at most `k` fresh directed
inferred edges are added per station (when the station codes are distinct),
each priced `travel_min = distance_km / avg_speed * 60`. The distance itself
is an abstract parameter standing for the floating-point haversine. -/
theorem C7_knn_candidate_ordering (hav : ℚ → ℚ → ℚ → ℚ → ℚ)
    (stations : List (String × Station)) (base : List Section) (k : ℕ) (speed : ℚ)
    (l : List (ℚ × String)) (d : ℚ) (c : String) :
    List.Pairwise (fun x y => x.1 ≤ y.1) (sortByDist l)
    ∧ List.Perm (sortByDist l) l
    ∧ (sortByDist l).filter (fun x => decide (x.1 = d)) = l.filter (fun x => decide (x.1 = d))
    ∧ (∃ suf, augment_sections_with_knn hav stations base k speed = base ++ suf
        ∧ (∀ s ∈ suf, s.leg_type = "inferred" ∧ s.travel_min = s.distance_km / speed * 60
            ∧ pairOf s ∉ base.map pairOf)
        ∧ (suf.map pairOf).Nodup)
    ∧ ((stations.map Prod.fst).Nodup →
        ((augment_sections_with_knn hav stations base k speed).countP
            (fun s => decide (s.from_code = c)))
          ≤ base.countP (fun s => decide (s.from_code = c)) + k) := by
  refine ⟨sortByDist_sorted l, sortByDist_perm l, sortByDist_stable l d, ?_, ?_⟩
  · rcases augment_structure hav stations base k speed with ⟨suf, hres, hprops, hnd, hfresh⟩
    refine ⟨suf, hres, fun s hs => ⟨(hprops s hs).1, (hprops s hs).2.1, ?_⟩, hnd⟩
    exact fun hb => hfresh (pairOf s) (List.mem_map.mpr ⟨s, hs, rfl⟩) hb
  · intro hnd
    exact augment_countP_le hav stations base k speed c hnd

/-- Witness for C7: the per-station bound at `k = 1` on the concrete
three-station network. -/
theorem C7_witness :
    ((stationsXZA.map Prod.fst).Nodup)
    ∧ ((augment_sections_with_knn hvSq stationsXZA [] 1 70).countP
        (fun s => decide (s.from_code = "X")))
      ≤ ([] : List Section).countP (fun s => decide (s.from_code = "X")) + 1 :=
  ⟨by decide,
    (C7_knn_candidate_ordering hvSq stationsXZA [] 1 70 [] 0 "X").2.2.2.2 (by decide)⟩

/-! ## C6: network structural invariant -/

/-- Counterexample for C6 as stated: real sections are loaded from the
sections file without any validation against the station set, so with both
station sources unavailable (empty station set) a loaded section's endpoints
do not exist in the station set. -/
theorem C6_counterexample :
    (merge_stations none none = [])
    ∧ (∃ s ∈ augment_sections_with_knn hvSq (merge_stations none none)
        (load_real_sections (some [⟨"A", "A", "B", "B", 10, 12⟩])) 3 70,
        s.from_code ∉ (merge_stations none none).map Prod.fst
        ∧ s.to_code ∉ (merge_stations none none).map Prod.fst) :=
  ⟨rfl, by decide⟩

/-- C6 (amended): an adjacency lookup for a station code that is not the
`from_code` of any section yields the empty neighbor list rather than
failing; and every section of the augmented network either comes from the
base list (unvalidated) or is an inferred section whose endpoints exist in
the station set. The endpoint invariant holds only for inferred sections:
loaded real sections are never checked against the station set. -/
theorem C6_network_invariant (sections : List Section) (c : String)
    (hav : ℚ → ℚ → ℚ → ℚ → ℚ) (stations : List (String × Station)) (base : List Section)
    (k : ℕ) (speed : ℚ) :
    (c ∉ sections.map Section.from_code → build_adjacency sections c = [])
    ∧ (∀ s ∈ augment_sections_with_knn hav stations base k speed,
        s ∈ base ∨ (s.from_code ∈ stations.map Prod.fst ∧ s.to_code ∈ stations.map Prod.fst)) := by
  constructor
  · intro hc
    unfold build_adjacency
    refine foldl_preserves (P := fun adj => adj c = [])
      (fun adj s => fun c' => if c' = s.from_code then adj c' ++ [(s.to_code, s)] else adj c')
      sections (fun _ => []) ?_ rfl
    intro acc x hx hacc
    have hne : c ≠ x.from_code := fun h => hc (h ▸ List.mem_map.mpr ⟨x, hx, rfl⟩)
    simp only [if_neg hne]
    exact hacc
  · intro s hs
    rcases augment_structure hav stations base k speed with ⟨suf, hres, hprops, _, _⟩
    rw [hres] at hs
    rcases List.mem_append.mp hs with hs | hs
    · exact Or.inl hs
    · exact Or.inr ⟨(hprops s hs).2.2.1, (hprops s hs).2.2.2⟩

/-- Witness for C6: an unknown code's adjacency lookup is empty. -/
theorem C6_witness :
    ("Z" ∉ [secAB].map Section.from_code) ∧ build_adjacency [secAB] "Z" = [] :=
  ⟨by decide, (C6_network_invariant [secAB] "Z" hvSq [] [] 0 70).1 (by decide)⟩

/-! ## C8: station merging field preference -/

theorem alookup_some_mem {κ α : Type} [DecidableEq κ] (m : List (κ × α)) (k : κ) (v : α)
    (h : alookup m k = some v) : (k, v) ∈ m := by
  induction m with
  | nil => exact Option.noConfusion h
  | cons p rest ih =>
    obtain ⟨a, b⟩ := p
    rw [alookup_cons] at h
    by_cases hk : k = a
    · rw [if_pos hk] at h
      injection h with h
      subst hk h
      exact List.mem_cons_self _ _
    · rw [if_neg hk] at h
      exact List.mem_cons_of_mem _ (ih h)

/-- The merged station for a code present in both dicts, as a function of the
already-merged (Trainsih-seeded) entry and the SIH entry. -/
def mergeCombine (mOpt : Option Station) (code : String) (st : Station) : Station :=
  match mOpt with
  | some m =>
    { code := code
      name := if m.name = "" then st.name else m.name
      platform_count := if m.platform_count = 0 then st.platform_count else m.platform_count
      halt_min := if m.halt_min = 0 then st.halt_min else m.halt_min
      lat := m.lat
      lon := m.lon }
  | none => st

/-- The per-SIH-entry step of the `merge_stations` fold, named for the
lemmas. -/
def mergeStep (merged : List (String × Station)) (p : String × Station) : List (String × Station) :=
  match alookup merged p.1 with
  | some m =>
    dinsert merged p.1
      { code := p.1
        name := if m.name = "" then p.2.name else m.name
        platform_count := if m.platform_count = 0 then p.2.platform_count else m.platform_count
        halt_min := if m.halt_min = 0 then p.2.halt_min else m.halt_min
        lat := m.lat
        lon := m.lon }
  | none => dinsert merged p.1 p.2

theorem merge_stations_eq (sp tp : Option (List RawStationRow)) :
    merge_stations sp tp = (load_sih_stations sp).foldl mergeStep (load_trainsih_stations tp) := rfl

theorem mergeStep_other (merged : List (String × Station)) (p : String × Station) (code : String)
    (h : p.1 ≠ code) : alookup (mergeStep merged p) code = alookup merged code := by
  unfold mergeStep
  cases alookup merged p.1 <;>
    (rw [alookup_dinsert, if_neg (fun hc => h hc.symm)])

theorem merge_foldl_not_mem (l : List (String × Station)) (m : List (String × Station))
    (code : String) (h : code ∉ l.map Prod.fst) :
    alookup (l.foldl mergeStep m) code = alookup m code := by
  induction l generalizing m with
  | nil => rfl
  | cons p rest ih =>
    rw [List.map_cons] at h
    rw [List.foldl_cons, ih _ (fun hm => h (List.mem_cons_of_mem _ hm))]
    exact mergeStep_other m p code (fun hp => h (hp ▸ List.mem_cons_self _ _))

theorem merge_foldl_mem (l : List (String × Station)) (m : List (String × Station))
    (code : String) (stS : Station) (hnd : (l.map Prod.fst).Nodup) (hmem : (code, stS) ∈ l) :
    alookup (l.foldl mergeStep m) code = some (mergeCombine (alookup m code) code stS) := by
  induction l generalizing m with
  | nil => exact absurd hmem (List.not_mem_nil _)
  | cons p rest ih =>
    rw [List.map_cons] at hnd
    rcases List.nodup_cons.mp hnd with ⟨hp, hrest⟩
    rw [List.foldl_cons]
    rcases List.mem_cons.mp hmem with heq | hmem'
    · have hc1 : p.1 = code := by rw [← heq]
      have hc2 : p.2 = stS := by rw [← heq]
      have hkey : code ∉ rest.map Prod.fst := hc1 ▸ hp
      rw [merge_foldl_not_mem rest _ code hkey]
      unfold mergeStep mergeCombine
      rw [hc1, hc2]
      cases halo : alookup m code <;> simp only [alookup_dinsert, if_pos rfl, if_true]
    · have hpc : p.1 ≠ code := by
        intro hpc
        exact hp (hpc ▸ List.mem_map.mpr ⟨(code, stS), hmem', rfl⟩)
      rw [ih _ hrest hmem', mergeStep_other m p code hpc]

theorem load_sih_keys_nodup (x : Option (List RawStationRow)) :
    ((load_sih_stations x).map Prod.fst).Nodup := by
  cases x with
  | none => exact List.nodup_nil
  | some rows =>
    simp only [load_sih_stations]
    exact @foldl_preserves (List (String × Station)) RawStationRow
      (fun m => (m.map Prod.fst).Nodup) _ rows []
      (fun acc r _ hacc => dinsert_keys_nodup acc _ _ hacc) (by simp)

theorem load_trainsih_keys_nodup (x : Option (List RawStationRow)) :
    ((load_trainsih_stations x).map Prod.fst).Nodup := by
  cases x with
  | none => exact List.nodup_nil
  | some rows =>
    simp only [load_trainsih_stations]
    refine @foldl_preserves (List (String × Station)) RawStationRow
      (fun m => (m.map Prod.fst).Nodup) _ rows [] ?_ (by simp)
    intro acc r _ hacc
    cases alookup acc r.stationCode with
    | none => exact dinsert_keys_nodup acc _ _ hacc
    | some ex2 =>
      show (List.map Prod.fst
        (if (ex2.lat = none ∨ ex2.lon = none) ∧ r.latitude ≠ none ∧ r.longitude ≠ none
          then dinsert acc r.stationCode (trainsihRowStation r) else acc)).Nodup
      split_ifs
      · exact dinsert_keys_nodup acc _ _ hacc
      · exact hacc

/-- C8 (amended): for a station code present in both datasets, the merged
station's coordinates come from the Trainsih (coordinate-bearing, second)
dataset unconditionally — the SIH loader never yields coordinates, so these
fill every gap — and each non-coordinate field (name, platform count, halt
time) is filled from whichever source has a non-empty/non-zero value with the
TRAINSIH value preferred when both have one (the claim asserted the primary
SIH dataset is preferred; the code prefers the Trainsih side). -/
theorem C8_merge_field_preference (sihRows trnRows : List RawStationRow) (code : String)
    (stS stT : Station)
    (hS : alookup (load_sih_stations (some sihRows)) code = some stS)
    (hT : alookup (load_trainsih_stations (some trnRows)) code = some stT) :
    alookup (merge_stations (some sihRows) (some trnRows)) code =
      some { code := code
             name := if stT.name = "" then stS.name else stT.name
             platform_count := if stT.platform_count = 0 then stS.platform_count
               else stT.platform_count
             halt_min := if stT.halt_min = 0 then stS.halt_min else stT.halt_min
             lat := stT.lat
             lon := stT.lon } := by
  rw [merge_stations_eq,
    merge_foldl_mem _ _ code stS (load_sih_keys_nodup _) (alookup_some_mem _ _ _ hS), hT]
  rfl

def sihRowX : RawStationRow :=
  { stationCode := "X", stationName := "SihName", platformCount := 2, haltMin := 3,
    latitude := none, longitude := none }

def trnRowX : RawStationRow :=
  { stationCode := "X", stationName := "TrnName", platformCount := 4, haltMin := 6,
    latitude := some 10, longitude := some 20 }

/-- Counterexample for C8 as stated: code "X" exists in both datasets with a
non-empty name and non-zero platform count and halt time on each side; the
merged record carries the Trainsih (second dataset) values, not the primary
SIH values the claim predicts. -/
theorem C8_counterexample :
    alookup (merge_stations (some [sihRowX]) (some [trnRowX])) "X" =
      some { code := "X", name := "TrnName", platform_count := 4, halt_min := 6,
             lat := some 10, lon := some 20 }
    ∧ ("TrnName" : String) ≠ "SihName" ∧ (4 : ℕ) ≠ 2 ∧ (6 : ℚ) ≠ 3 :=
  ⟨by decide, by decide, by decide, by decide⟩

/-- Witness for C8 on the concrete two-row inputs. -/
theorem C8_witness :
    alookup (merge_stations (some [sihRowX]) (some [trnRowX])) "X" =
      some { code := "X",
             name := if ("TrnName" : String) = "" then "SihName" else "TrnName",
             platform_count := if (4 : ℕ) = 0 then 2 else 4,
             halt_min := if (6 : ℚ) = 0 then 3 else 6,
             lat := some 10, lon := some 20 } :=
  C8_merge_field_preference [sihRowX] [trnRowX] "X"
    { code := "X", name := "SihName", platform_count := 2, halt_min := 3, lat := none, lon := none }
    { code := "X", name := "TrnName", platform_count := 4, halt_min := 6,
      lat := some 10, lon := some 20 }
    (by decide) (by decide)
